import Mathlib

/-!
Artifact selection and publishing in `crane push` and `crane name`.

A shallow embedding of `cmd/crane/cmd/push.go` and `cmd/crane/cmd/name.go`
of go-containerregistry, with the properties of the matcher engine, the
artifact loader and the two command bodies stated over that embedding.

Go strings are Lean `String`s, slices are `List`s, `(T, error)` results are
`Except Error T`.  Calls that leave the two files (the operating system, the
registry transport, the layout reader, the reference parser) are fields of a
`World` record, so every theorem holds for all behaviours of those
collaborators.
-/

set_option autoImplicit false

namespace Crane

/-! ## Data model -/

/-- Modelled from the spec: `v1.Hash` (package `pkg/v1` is not among the
sources), the content hash of a known algorithm carried by descriptors and by
Digest References. -/
structure Hash where
  Algorithm : String
  Hex : String
  deriving DecidableEq, Repr

/-- Modelled from the spec: the string form of a `v1.Hash`, the algorithm and
the hex digest joined by a colon. -/
def Hash.String (h : Hash) : String :=
  h.Algorithm ++ ":" ++ h.Hex

/-- The Go type `types.MediaType` is a string type. -/
abbrev MediaType := String

/-- Modelled from the spec: `v1.Descriptor` (package `pkg/v1` is not among the
sources): content hash, size, media type and annotation key/value pairs.  The
Go map of annotations is an association list read by first-match lookup. -/
structure Descriptor where
  MediaType : MediaType
  Size : Int
  Digest : Hash
  Annotations : List (String × String)
  deriving DecidableEq, Repr

/-- Modelled from the spec: `v1.IndexManifest` (package `pkg/v1` is not among
the sources): an ordered sequence of descriptors plus index-level
annotations. -/
structure IndexManifest where
  SchemaVersion : Int
  MediaType : MediaType
  Manifests : List Descriptor
  Annotations : List (String × String)
  deriving DecidableEq, Repr

/-- The Go type `match.Matcher`, `func(desc v1.Descriptor) bool`. -/
abbrev Matcher := Descriptor → Bool

/-- Arguments captured by a `fmt.Errorf` call. -/
inductive Arg where
  | str (s : String)
  | int (n : Int)
  deriving DecidableEq, Repr

/-- Go `error` values.  An error handed back by a collaborator is `external`
with its message; an error built in the two command files keeps the format
string of its `fmt.Errorf` call and the arguments, and `wrapf` is the form
with a wrapped error (the `%w` verb). -/
inductive Error where
  | external (msg : String)
  | errorf (format : String) (args : List Arg)
  | wrapf (format : String) (args : List Arg) (err : Error)
  deriving DecidableEq, Repr

/-- Modelled from the spec: `name.Reference` (package `pkg/name` is not among
the sources): a Tag Reference (repository and tag) or a Digest Reference
(repository and content hash string). -/
inductive Reference where
  | Tag (repository : String) (tag : String)
  | Digest (repository : String) (digest : String)
  deriving DecidableEq, Repr

/-- Modelled from the spec: `Reference.Context()`, the repository of a
reference, here by its name. -/
def Reference.Context : Reference → String
  | .Tag repository _ => repository
  | .Digest repository _ => repository

/-- Modelled from the spec: `Reference.Name()`, the fully qualified name:
repository and tag joined by a colon, repository and digest joined by `@`. -/
def Reference.Name : Reference → String
  | .Tag repository tag => repository ++ ":" ++ tag
  | .Digest repository digest => repository ++ "@" ++ digest

/-- Modelled from the spec: `Repository.Digest(identifier).String()`, the
digest-qualified form of a repository (the form `name.go` line 46 spells
out by hand). -/
def Repository.Digest (repository identifier : String) : String :=
  repository ++ "@" ++ identifier

/-- The part of `os.FileInfo` that `loadImage` reads. -/
structure FileInfo where
  IsDir : Bool
  deriving DecidableEq, Repr

/-- The value returned by `loadImage`, a `partial.WithRawManifest`: an image,
an image index, or some other implementation of the interface (which
`loadImage` never builds; the type switch of the push command has a default
case for it). -/
inductive Handle (Img Idx : Type) where
  | image (img : Img)
  | index (idx : Idx)
  | other (typeName : String)
  deriving DecidableEq, Repr

/-- The collaborators of the two commands: every call that leaves `push.go`
and `name.go` and touches the file system, the layout reader, the registry
or a parser.  `Img` and `Idx` are the types of `v1.Image` and
`v1.ImageIndex` values.  A failing call returns the message of its error. -/
structure World (Img Idx : Type) where
  /-- Go `os.Stat`. -/
  Stat : String → Except String FileInfo
  /-- Go `crane.Load`. -/
  Load : String → Except String Img
  /-- Go `layout.ImageIndexFromPath`. -/
  ImageIndexFromPath : String → Except String Idx
  /-- Go `layout.ImageIndexFromPathWithIndex`. -/
  ImageIndexFromPathWithIndex : String → IndexManifest → Except String Idx
  /-- Go `v1.ImageIndex.IndexManifest`. -/
  IndexManifest : Idx → Except String IndexManifest
  /-- Go `v1.ImageIndex.Image`. -/
  Image : Idx → Hash → Except String Img
  /-- Go `v1.ImageIndex.ImageIndex`. -/
  ImageIndex : Idx → Hash → Except String Idx
  /-- Go `types.MediaType.IsImage`. -/
  IsImage : MediaType → Bool
  /-- Go `types.MediaType.IsIndex`. -/
  IsIndex : MediaType → Bool
  /-- Go `v1.NewHash`. -/
  NewHash : String → Except String Hash
  /-- Go `v1.Image.Digest`. -/
  ImageDigest : Img → Except String Hash
  /-- Go `v1.ImageIndex.Digest`. -/
  IndexDigest : Idx → Except String Hash
  /-- Go `name.ParseReference` with the name options of the command. -/
  ParseReference : String → Except String Reference
  /-- Go `remote.Write` with the remote options of the command. -/
  Write : Reference → Img → Except String Unit
  /-- Go `remote.WriteIndex` with the remote options of the command. -/
  WriteIndex : Reference → Idx → Except String Unit
  /-- Go `ioutil.WriteFile` with mode 0600. -/
  WriteFile : String → String → Except String Unit
  /-- Go `crane.Digest` with the options of the command. -/
  CraneDigest : String → Except String String

/-! ## Library matchers -/

/-- Modelled from the spec: `match.Annotation` (package `pkg/v1/match` is not
among the sources): accept the descriptors carrying this exact annotation
pair, that is, whose annotations map `key` to `value`. -/
def Annotation (key value : String) : Matcher :=
  fun desc => desc.Annotations.lookup key == some value

/-- Modelled from the spec: `match.Name` (package `pkg/v1/match` is not among
the sources): accept the descriptors whose name annotation, the one with key
`org.opencontainers.image.ref.name` (help text of `--match-name`), equals
the value. -/
def Name (name : String) : Matcher :=
  Annotation "org.opencontainers.image.ref.name" name

/-- Modelled from the spec: `match.Digests` (package `pkg/v1/match` is not
among the sources): accept the descriptors whose content hash is one of the
given hashes. -/
def Digests (digests : List Hash) : Matcher :=
  fun desc => digests.contains desc.Digest

/-! ## Go string helpers -/

/-- Go `strings.Index` on the characters of the two strings: the position of
the first occurrence of `sep` in `s`, or `none` where Go returns -1. -/
def Index : List Char → List Char → Option Nat
  | [], sep => if sep.isEmpty then some 0 else none
  | c :: t, sep =>
    if sep.isPrefixOf (c :: t) then some 0 else (Index t sep).map (· + 1)

/-- The loop of Go `strings.genSplit` for a non-empty separator, with `k`
the number of cuts still allowed: cut at the first occurrence of `sep`, go
on with what follows it; the rest of the string is the last piece. -/
def genSplit (sep : List Char) : Nat → List Char → List (List Char)
  | 0, s => [s]
  | k + 1, s =>
    match Index s sep with
    | none => [s]
    | some m => s.take m :: genSplit sep k (s.drop (m + sep.length))

/-- Go `strings.explode`: up to `n` pieces of one character each, the last
piece holding the rest of the string. -/
def explode : Nat → List Char → List (List Char)
  | 0, _ => []
  | _ + 1, [] => []
  | 0 + 1, s => [s]
  | k + 1 + 1, c :: t => [c] :: explode (k + 1) t

/-- Go `strings.SplitN(s, sep, n)` for `n ≥ 0`: at most `n` pieces, the last
one being the unsplit remainder; no piece at all for `n = 0`. -/
def SplitN (s sep : String) (n : Nat) : List String :=
  if n = 0 then []
  else if sep = "" then (explode n s.data).map String.mk
  else (genSplit sep.data (min n (s.data.length + 1) - 1) s.data).map String.mk

/-! ## Matcher compilation (`push.go`, lines 170-211) -/

/-- The struct `indexMatchers` of `push.go`, the values of `--match-name`,
`--match-digest` and `--match-annotation`. -/
structure indexMatchers where
  name : String
  digest : String
  annotations : List String
  deriving DecidableEq, Repr

/-- The loop of `GetMatchers` over `im.annotations` (lines 203-209): split
each string at its first `=`, fail when there are not two parts, else append
the annotation matcher of the two parts. -/
def annotationMatchers : List String → List Matcher → Except Error (List Matcher)
  | [], matchers => .ok matchers
  | s :: rest, matchers =>
    let parts := SplitN s "=" 2
    if parts.length ≠ 2 then
      .error (.errorf "match-annotation \"%s\" is missing a \"=\" sign" [.str s])
    else
      annotationMatchers rest
        (matchers ++ [ Annotation (parts.getD 0 "") (parts.getD 1 "")])

/-- The method `indexMatchers.GetMatchers` of `push.go`. -/
def GetMatchers {Img Idx : Type} (W : World Img Idx)
    (im : indexMatchers) : Except Error (List Matcher) :=
  let matchers : List Matcher := []
  let withDigest : Except Error (List Matcher) :=
    if im.digest ≠ "" then
      match W.NewHash im.digest with
      | .error err => .error (.external err)
      | .ok hashRef => .ok (matchers ++ [Digests [hashRef]])
    else .ok matchers
  match withDigest with
  | .error err => .error err
  | .ok matchers =>
    let matchers :=
      if im.name ≠ "" then matchers ++ [Name im.name] else matchers
    annotationMatchers im.annotations matchers

/-! ## Matcher evaluation (`push.go`, lines 213-220 and 139-145) -/

/-- The function `matchesAll` of `push.go`: walk the matchers in order and
return false at the first one that rejects the descriptor. -/
def matchesAll (desc : Descriptor) : List Matcher → Bool
  | [] => true
  | matcher :: rest => if !matcher desc then false else matchesAll desc rest

/-- The filtering loop of `loadImage` (lines 139-144): starting from an empty
slice, append every descriptor of the manifest for which `matchesAll` holds. -/
def filteredManifests (manifests : List Descriptor) (matchers : List Matcher) :
    List Descriptor :=
  manifests.foldl
    (fun acc d => if matchesAll d matchers then acc ++ [d] else acc) []

/-! ## The artifact loader (`push.go`, lines 114-168) -/

/-- Lines 156-167 of `loadImage`, reached when `index` is false: require
exactly one descriptor in the filtered manifest and resolve it, by its media
type, through the filtered index view `l`. -/
def loadImage.single {Img Idx : Type} (W : World Img Idx) (l : Idx)
    (manifests : List Descriptor) : Except Error (Handle Img Idx) :=
  if h : manifests.length ≠ 1 then
    .error (.errorf "layout contains %d entries, consider --index"
      [.int manifests.length])
  else
    let desc := manifests.get ⟨0, by omega⟩
    if W.IsImage desc.MediaType then
      match W.Image l desc.Digest with
      | .error err => .error (.external err)
      | .ok img => .ok (.image img)
    else if W.IsIndex desc.MediaType then
      match W.ImageIndex l desc.Digest with
      | .error err => .error (.external err)
      | .ok idx => .ok (.index idx)
    else
      .error (.errorf
        "layout contains non-image (mediaType: %q), consider --index"
        [.str desc.MediaType])

/-- The function `loadImage` of `push.go`. -/
def loadImage {Img Idx : Type} (W : World Img Idx) (path : String)
    (index : Bool) (matchers : List Matcher) : Except Error (Handle Img Idx) :=
  match W.Stat path with
  | .error err => .error (.external err)
  | .ok stat =>
    if !stat.IsDir then
      match W.Load path with
      | .error err =>
        .error (.wrapf "loading %s as tarball: %w" [.str path] (.external err))
      | .ok img => .ok (.image img)
    else
      match W.ImageIndexFromPath path with
      | .error err =>
        .error (.wrapf "loading %s as OCI layout: %w" [.str path] (.external err))
      | .ok l =>
        match W.IndexManifest l with
        | .error err => .error (.external err)
        | .ok m =>
          let m : IndexManifest :=
            { m with Manifests := filteredManifests m.Manifests matchers }
          match W.ImageIndexFromPathWithIndex path m with
          | .error err => .error (.external err)
          | .ok l =>
            if index then .ok (.index l)
            else loadImage.single W l m.Manifests

/-! ## Command bodies -/

/-- How a command body ends: with a run-time panic, or by returning an error
value (`none` for Go `nil`). -/
inductive Outcome where
  | panic (msg : String)
  | returned (err : Option Error)
  deriving DecidableEq, Repr

/-- A run of a command body: the effects it had on the outside, in order,
and how it ended. -/
structure Run (E : Type) where
  effects : List E
  outcome : Outcome
  deriving DecidableEq, Repr

/-- The effects of the push command: a call of `remote.Write`, of
`remote.WriteIndex`, or of `ioutil.WriteFile` (made whether or not the call
then succeeds). -/
inductive Effect (Img Idx : Type) where
  | Write (ref : Reference) (img : Img)
  | WriteIndex (ref : Reference) (idx : Idx)
  | WriteFile (filename : String) (data : String)
  deriving DecidableEq, Repr

/-- Package cobra, `ExactArgs(n)`: an error unless there are exactly `n`
arguments. -/
def ExactArgs (n : Nat) (args : List String) : Option Error :=
  if args.length ≠ n then
    some (.errorf "accepts %d arg(s), received %d" [.int n, .int args.length])
  else none

/-- Package cobra, `MaximumNArgs(n)`: an error when there are more than `n`
arguments. -/
def MaximumNArgs (n : Nat) (args : List String) : Option Error :=
  if args.length > n then
    some (.errorf "accepts at most %d arg(s), received %d"
      [.int n, .int args.length])
  else none

/-- Lines 62-70 of `push.go`: for a Digest Reference destination, parse its
digest string and append the digest matcher of that hash. -/
def NewCmdPush.digestSelector {Img Idx : Type} (W : World Img Idx)
    (ref : Reference) (matchers : List Matcher) : Except Error (List Matcher) :=
  match ref with
  | .Digest _ digestStr =>
    match W.NewHash digestStr with
    | .error err => .error (.external err)
    | .ok hashRef => .ok (matchers ++ [Digests [hashRef]])
  | .Tag _ _ => .ok matchers

/-- Lines 97-104 of `push.go`: form the digest reference of the destination
repository and, when `--image-refs` is set, write it to that file. -/
def NewCmdPush.record {Img Idx : Type} (W : World Img Idx) (imageRefs : String)
    (ref : Reference) (h : Hash) (done : List (Effect Img Idx)) :
    Run (Effect Img Idx) :=
  let digest := Repository.Digest ref.Context h.String
  if imageRefs ≠ "" then
    match W.WriteFile imageRefs digest with
    | .error err =>
      ⟨done ++ [.WriteFile imageRefs digest], .returned (some (.external err))⟩
    | .ok _ => ⟨done ++ [.WriteFile imageRefs digest], .returned none⟩
  else ⟨done, .returned none⟩

/-- The `RunE` closure of `NewCmdPush`, with the values of the flags
`--index` and `--image-refs` and of the match flags. -/
def NewCmdPush.RunE {Img Idx : Type} (W : World Img Idx) (index : Bool)
    (imageRefs : String) (im : indexMatchers) (args : List String) :
    Run (Effect Img Idx) :=
  match args with
  | path :: tag :: _ =>
    match W.ParseReference tag with
    | .error err => ⟨[], .returned (some (.external err))⟩
    | .ok ref =>
      match GetMatchers W im with
      | .error err => ⟨[], .returned (some err)⟩
      | .ok matchers =>
        match NewCmdPush.digestSelector W ref matchers with
        | .error err => ⟨[], .returned (some err)⟩
        | .ok matchers =>
          match loadImage W path index matchers with
          | .error err => ⟨[], .returned (some err)⟩
          | .ok (.image t) =>
            match W.Write ref t with
            | .error err => ⟨[.Write ref t], .returned (some (.external err))⟩
            | .ok _ =>
              match W.ImageDigest t with
              | .error err =>
                ⟨[.Write ref t], .returned (some (.external err))⟩
              | .ok h => NewCmdPush.record W imageRefs ref h [.Write ref t]
          | .ok (.index t) =>
            match W.WriteIndex ref t with
            | .error err =>
              ⟨[.WriteIndex ref t], .returned (some (.external err))⟩
            | .ok _ =>
              match W.IndexDigest t with
              | .error err =>
                ⟨[.WriteIndex ref t], .returned (some (.external err))⟩
              | .ok h => NewCmdPush.record W imageRefs ref h [.WriteIndex ref t]
          | .ok (.other typeName) =>
            ⟨[], .returned (some
              (.errorf "cannot push type (%T) to registry" [.str typeName]))⟩
  | _ => ⟨[], .panic "index out of range"⟩

/-- The push command as cobra runs it: `Args` is `cobra.ExactArgs(2)`, and
`RunE` runs only when the validator accepts the arguments. -/
def NewCmdPush.Execute {Img Idx : Type} (W : World Img Idx) (index : Bool)
    (imageRefs : String) (im : indexMatchers) (args : List String) :
    Run (Effect Img Idx) :=
  match ExactArgs 2 args with
  | some err => ⟨[], .returned (some err)⟩
  | none => NewCmdPush.RunE W index imageRefs im args

/-- The `RunE` closure of `NewCmdName` (`name.go`, lines 32-51), with the
value of the flag `--lock`; the effects are the lines printed. -/
def NewCmdName.RunE {Img Idx : Type} (W : World Img Idx) (lock : Bool)
    (args : List String) : Run String :=
  match args[0]? with
  | none => ⟨[], .panic "index out of range [0] with length 0"⟩
  | some img =>
    match W.ParseReference img with
    | .error err => ⟨[], .returned (some (.external err))⟩
    | .ok ref =>
      if lock then
        match W.CraneDigest img with
        | .error err => ⟨[], .returned (some (.external err))⟩
        | .ok dgst => ⟨[ref.Context ++ "@" ++ dgst], .returned none⟩
      else ⟨[ref.Name], .returned none⟩

/-- The name command as cobra runs it: `Args` is `cobra.MaximumNArgs(1)`,
and `RunE` runs only when the validator accepts the arguments. -/
def NewCmdName.Execute {Img Idx : Type} (W : World Img Idx) (lock : Bool)
    (args : List String) : Run String :=
  match MaximumNArgs 1 args with
  | some err => ⟨[], .returned (some err)⟩
  | none => NewCmdName.RunE W lock args

/-! ## Reading a `key=value` string -/

/-- The text before the first `=` of a string (the whole string when it has
none), in the words of the `--match-annotation` flag. -/
def beforeEq (s : String) : String :=
  String.mk (s.data.takeWhile (fun c => c != '='))

/-- The text after the first `=` of a string (empty when it has none), in the
words of the `--match-annotation` flag. -/
def afterEq (s : String) : String :=
  String.mk ((s.data.dropWhile (fun c => c != '=')).drop 1)

/-! ## A concrete world -/

/-- Whether a character is a lower-case hexadecimal digit. -/
def isHexDigit (c : Char) : Bool :=
  "0123456789abcdef".data.contains c

/-- A hash parser for the concrete world, with the checks of `v1.NewHash` for
SHA-256: the algorithm `sha256`, a colon, and exactly 64 lower-case
hexadecimal digits. -/
def hashOfString (s : String) : Except String Hash :=
  match s.data with
  | 's' :: 'h' :: 'a' :: '2' :: '5' :: '6' :: ':' :: hex =>
    if hex.length = 64 ∧ hex.all isHexDigit then .ok ⟨"sha256", String.mk hex⟩
    else .error "invalid hash"
  | _ => .error "unsupported hash"

/-- A reference parser for the concrete world: `repository@digest` with a
well-formed SHA-256 digest is a Digest Reference, `repository:tag` a Tag
Reference, a bare repository gets the tag `latest`. -/
def referenceOfString (s : String) : Except String Reference :=
  match SplitN s "@" 2 with
  | [repository, digest] =>
    if repository = "" then .error "repository can not be empty"
    else
      match hashOfString digest with
      | .error err => .error err
      | .ok _ => .ok (.Digest repository digest)
  | _ =>
    match SplitN s ":" 2 with
    | [repository, tag] => .ok (.Tag repository tag)
    | _ => if s = "" then .error "empty reference" else .ok (.Tag s "latest")

/-- The hexadecimal digest of the first example image. -/
def hexA : String :=
  "aaaaaaaaaaaaaaaaaaaaaaaaaaaaaaaaaaaaaaaaaaaaaaaaaaaaaaaaaaaaaaaa"

/-- The hexadecimal digest of the second example image, also the image of
the tarball. -/
def hexB : String :=
  "bbbbbbbbbbbbbbbbbbbbbbbbbbbbbbbbbbbbbbbbbbbbbbbbbbbbbbbbbbbbbbbb"

/-- A hexadecimal digest that no example image has. -/
def hexC : String :=
  "cccccccccccccccccccccccccccccccccccccccccccccccccccccccccccccccc"

/-- A stand-in for the digest of an index manifest in the concrete world: 64
hexadecimal digits that start with `f`, hence different from the digest of
each example image. -/
def indexHex (l : List Descriptor) : String :=
  String.mk
    (('f' :: l.foldr (fun d acc => d.Digest.Hex.data ++ acc)
      (List.replicate 64 '0')).take 64)

/-- A concrete world over a layout directory `layout` with the given
descriptors and a tarball `image.tar` holding one image of digest
`sha256:bbbb...b`.  An image is named by its digest, an index view by its
descriptors; registry and file writes succeed. -/
def exampleWorld (manifests : List Descriptor) : World Hash (List Descriptor) where
  Stat := fun path =>
    if path = "layout" then .ok ⟨true⟩
    else if path = "image.tar" then .ok ⟨false⟩
    else .error "no such file or directory"
  Load := fun _ => .ok ⟨"sha256", hexB⟩
  ImageIndexFromPath := fun _ => .ok manifests
  ImageIndexFromPathWithIndex := fun _ m => .ok m.Manifests
  IndexManifest := fun l =>
    .ok ⟨2, "application/vnd.oci.image.index.v1+json", l, []⟩
  Image := fun l h =>
    if l.any (fun d => d.Digest == h) then .ok h else .error "not found"
  ImageIndex := fun l h =>
    if l.any (fun d => d.Digest == h) then .ok [] else .error "not found"
  IsImage := fun mt =>
    mt == "application/vnd.oci.image.manifest.v1+json" ||
      mt == "application/vnd.docker.distribution.manifest.v2+json"
  IsIndex := fun mt =>
    mt == "application/vnd.oci.image.index.v1+json" ||
      mt == "application/vnd.docker.distribution.manifest.list.v2+json"
  NewHash := hashOfString
  ImageDigest := fun img => .ok img
  IndexDigest := fun l => .ok ⟨"sha256", indexHex l⟩
  ParseReference := referenceOfString
  Write := fun _ _ => .ok ()
  WriteIndex := fun _ _ => .ok ()
  WriteFile := fun _ _ => .ok ()
  CraneDigest := fun _ => .error "registry unavailable"

/-- An image descriptor with digest `sha256:aaaa...a` and the annotation
`foo=bar`. -/
def imageA : Descriptor :=
  ⟨"application/vnd.oci.image.manifest.v1+json", 528, ⟨"sha256", hexA⟩,
    [("foo", "bar")]⟩

/-- An image descriptor with digest `sha256:bbbb...b` and two annotations. -/
def imageB : Descriptor :=
  ⟨"application/vnd.oci.image.manifest.v1+json", 528, ⟨"sha256", hexB⟩,
    [("foo", "bar"), ("baz", "qux=1")]⟩

/-! ## Lemmas on the matcher engine -/

/-- The early-exit loop of `matchesAll` computes the conjunction of the matchers. -/
theorem matchesAll_eq_all (desc : Descriptor) (matchers : List Matcher) :
    matchesAll desc matchers = matchers.all (fun m => m desc) := by
  induction matchers with
  | nil => rfl
  | cons m ms ih =>
    cases hm : m desc <;> simp [matchesAll, hm, ih]

/-- The filtering loop, started from any accumulator, appends the filter of the input. -/
theorem filterLoop_eq (matchers : List Matcher) (manifests acc : List Descriptor) :
    manifests.foldl
        (fun acc d => if matchesAll d matchers then acc ++ [d] else acc) acc
      = acc ++ manifests.filter (fun d => matchesAll d matchers) := by
  induction manifests generalizing acc with
  | nil => simp
  | cons d ds ih =>
    cases hd : matchesAll d matchers <;> simp [List.foldl, hd, ih, List.filter]

/-- The filtering loop of `loadImage` is the order-preserving filter by `matchesAll`. -/
theorem filteredManifests_eq_filter (manifests : List Descriptor)
    (matchers : List Matcher) :
    filteredManifests manifests matchers
      = manifests.filter (fun d => matchesAll d matchers) := by
  simp [filteredManifests, filterLoop_eq]

/-- With no matcher the filtering loop copies its input. -/
theorem filteredManifests_nil (D : List Descriptor) :
    filteredManifests D [] = D := by
  rw [filteredManifests_eq_filter]
  simp [matchesAll]

/-- Acceptance by a concatenation of matcher lists is acceptance by both lists. -/
theorem matchesAll_append (d : Descriptor) (xs ys : List Matcher) :
    matchesAll d (xs ++ ys) = (matchesAll d xs && matchesAll d ys) := by
  simp [matchesAll_eq_all]

/-- A matcher list extended by the digest matcher of `h` accepts exactly the
descriptors the list accepts whose digest is `h`. -/
theorem digest_selector_accepts (d : Descriptor) (ms : List Matcher) (h : Hash) :
    matchesAll d (ms ++ [Digests [h]]) = true ↔
      matchesAll d ms = true ∧ d.Digest = h := by
  have hsel : matchesAll d [Digests [h]] = true ↔ d.Digest = h := by
    simp [matchesAll, Digests]
  rw [matchesAll_append, Bool.and_eq_true, hsel]

/-! ## Lemmas on splitting at the first `=` -/

/-- The position of the first `=`, as `strings.Index` finds it, is the length of the
longest prefix without `=`. -/
theorem Index_eq_sign (s : List Char) :
    Index s ['='] =
      if '=' ∈ s then some (s.takeWhile (fun c => c != '=')).length else none := by
  induction s with
  | nil => simp [Index]
  | cons c t ih =>
    by_cases hc : c = '='
    · subst hc
      simp [Index, List.isPrefixOf]
    · have hc' : ¬ ('=' = c) := fun h => hc h.symm
      by_cases ht : '=' ∈ t
      · have hb : (c != '=') = true := by simp [hc]
        simp [Index, List.isPrefixOf, hc, hc', ih, ht, List.takeWhile, hb]
      · simp [Index, List.isPrefixOf, hc, hc', ih, ht]

/-- Cutting a list at the length of its longest prefix satisfying `p` gives that
prefix. -/
theorem take_takeWhile_length (p : Char → Bool) (s : List Char) :
    s.take (s.takeWhile p).length = s.takeWhile p := by
  induction s with
  | nil => simp
  | cons c t ih => cases hc : p c <;> simp [List.takeWhile, hc, ih]

/-- Dropping the longest prefix satisfying `p` and one more element. -/
theorem drop_takeWhile_length (p : Char → Bool) (s : List Char) :
    s.drop ((s.takeWhile p).length + 1) = (s.dropWhile p).drop 1 := by
  induction s with
  | nil => simp
  | cons c t ih => cases hc : p c <;> simp [List.takeWhile, List.dropWhile, hc, ih]

/-- One cut at `=`: the text before the first `=` and the text after it, or the
string itself when it has no `=`. -/
theorem genSplit_eq_sign (s : List Char) :
    genSplit ['='] 1 s =
      if '=' ∈ s then
        [s.takeWhile (fun c => c != '='), (s.dropWhile (fun c => c != '=')).drop 1]
      else [s] := by
  by_cases h : '=' ∈ s
  · simp [genSplit, Index_eq_sign, h, take_takeWhile_length, drop_takeWhile_length]
  · simp [genSplit, Index_eq_sign, h]

/-- The call `strings.SplitN(s, "=", 2)` of `GetMatchers`: two parts exactly when
`s` contains `=`. -/
theorem SplitN_eq_sign (s : String) :
    SplitN s "=" 2 = if '=' ∈ s.data then [beforeEq s, afterEq s] else [s] := by
  have h1 : ¬ ((2 : Nat) = 0) := by decide
  have h2 : ¬ (("=" : String) = "") := by decide
  have h3 : ("=" : String).data = ['='] := rfl
  unfold SplitN
  rw [if_neg h1, if_neg h2, h3]
  cases s with
  | mk cs =>
    cases cs with
    | nil => simp [genSplit]
    | cons c t =>
      have h4 : min 2 ((c :: t).length + 1) - 1 = 1 := by
        simp only [List.length_cons]; omega
      simp only [h4, genSplit_eq_sign, beforeEq, afterEq]
      split <;> simp

/-! ## Lemmas on matcher compilation -/

/-- When every annotation string contains `=`, the annotation loop succeeds and
appends one annotation matcher per string, in order. -/
theorem annotationMatchers_ok (as : List String) (acc : List Matcher)
    (h : ∀ s ∈ as, '=' ∈ s.data) :
    annotationMatchers as acc
      = .ok (acc ++ as.map (fun s => Annotation (beforeEq s) (afterEq s))) := by
  induction as generalizing acc with
  | nil => simp [annotationMatchers]
  | cons s rest ih =>
    have hs : '=' ∈ s.data := h s (List.mem_cons_self s rest)
    have hrest : ∀ x ∈ rest, '=' ∈ x.data :=
      fun x hx => h x (List.mem_cons_of_mem s hx)
    simp [annotationMatchers, SplitN_eq_sign, hs, ih _ hrest]

/-- When some annotation string contains no `=`, the annotation loop fails. -/
theorem annotationMatchers_error (as : List String) (acc : List Matcher)
    (h : ∃ s ∈ as, '=' ∉ s.data) :
    ∃ err, annotationMatchers as acc = .error err := by
  induction as generalizing acc with
  | nil => simp at h
  | cons s rest ih =>
    by_cases hs : '=' ∈ s.data
    · have hrest : ∃ x ∈ rest, '=' ∉ x.data := by
        obtain ⟨x, hx, hne⟩ := h
        rcases List.mem_cons.mp hx with rfl | hx
        · exact absurd hs hne
        · exact ⟨x, hx, hne⟩
      obtain ⟨err, herr⟩ := ih (acc ++ [ Annotation (beforeEq s) (afterEq s)]) hrest
      exact ⟨err, by simp [annotationMatchers, SplitN_eq_sign, hs, herr]⟩
    · exact ⟨_, by simp [annotationMatchers, SplitN_eq_sign, hs]; rfl⟩

/-- Bookkeeping for a result known to be a success. -/
theorem fails_iff_of_ok {α : Type} {x : Except Error α} {v : α} {P Q : Prop}
    (hx : x = .ok v) (hP : ¬ P) (hQ : Q) :
    ((∃ err, x = .error err) ↔ P) ∧ ((∃ ms, x = .ok ms) ↔ Q) := by
  subst hx
  exact ⟨⟨fun ⟨_, he⟩ => (by cases he), fun hp => absurd hp hP⟩,
    ⟨fun _ => hQ, fun _ => ⟨v, rfl⟩⟩⟩

/-- Bookkeeping for a result known to be a failure. -/
theorem fails_iff_of_error {α : Type} {x : Except Error α} {e : Error}
    {P Q : Prop} (hx : x = .error e) (hP : P) (hQ : ¬ Q) :
    ((∃ err, x = .error err) ↔ P) ∧ ((∃ ms, x = .ok ms) ↔ Q) := by
  subst hx
  exact ⟨⟨fun _ => hP, fun _ => ⟨e, rfl⟩⟩,
    ⟨fun ⟨_, he⟩ => (by cases he), fun hq => absurd hq hQ⟩⟩

/-- With no `--match-digest`, `GetMatchers` is the annotation loop started from
the name matcher, if any. -/
theorem GetMatchers_no_digest {Img Idx : Type} (W : World Img Idx)
    (im : indexMatchers) (hd : im.digest = "") :
    GetMatchers W im = annotationMatchers im.annotations
      (if im.name ≠ "" then [Name im.name] else []) := by
  simp [GetMatchers, hd]

/-- With a well-formed `--match-digest`, `GetMatchers` is the annotation loop
started from the digest matcher and the name matcher, if any. -/
theorem GetMatchers_digest_ok {Img Idx : Type} (W : World Img Idx)
    (im : indexMatchers) (hd : im.digest ≠ "") (h : Hash)
    (hh : W.NewHash im.digest = .ok h) :
    GetMatchers W im = annotationMatchers im.annotations
      (if im.name ≠ "" then [Digests [h], Name im.name] else [Digests [h]]) := by
  simp [GetMatchers, hd, hh]

/-- With a `--match-digest` that `v1.NewHash` rejects, `GetMatchers` returns that
error. -/
theorem GetMatchers_digest_error {Img Idx : Type} (W : World Img Idx)
    (im : indexMatchers) (hd : im.digest ≠ "") (e : String)
    (hh : W.NewHash im.digest = .error e) :
    GetMatchers W im = .error (.external e) := by
  simp [GetMatchers, hd, hh]

/-! ## Lemmas on the artifact loader -/

/-- Unless exactly one descriptor is left, the image-mode tail of `loadImage`
returns the entry-count error. -/
theorem loadImage_single_count {Img Idx : Type} (W : World Img Idx) (l : Idx)
    (manifests : List Descriptor) (h : manifests.length ≠ 1) :
    loadImage.single W l manifests =
      .error (.errorf "layout contains %d entries, consider --index"
        [.int manifests.length]) := by
  simp [loadImage.single, h]

/-- With exactly one descriptor left, the image-mode tail of `loadImage`
dispatches on its media type. -/
theorem loadImage_single_one {Img Idx : Type} (W : World Img Idx) (l : Idx)
    (desc : Descriptor) :
    loadImage.single W l [desc] =
      if W.IsImage desc.MediaType then
        match W.Image l desc.Digest with
        | .error err => .error (.external err)
        | .ok img => .ok (.image img)
      else if W.IsIndex desc.MediaType then
        match W.ImageIndex l desc.Digest with
        | .error err => .error (.external err)
        | .ok idx => .ok (.index idx)
      else
        .error (.errorf
          "layout contains non-image (mediaType: %q), consider --index"
          [.str desc.MediaType]) := by
  simp [loadImage.single]

/-- On a directory whose layout reads succeed, `loadImage` returns the filtered
index view in index mode and runs its image-mode tail on the filtered
descriptors otherwise. -/
theorem loadImage_of_layout {Img Idx : Type} (W : World Img Idx) (path : String)
    (index : Bool) (M : List Matcher) (l l' : Idx) (m : IndexManifest)
    (hstat : W.Stat path = .ok ⟨true⟩)
    (hl : W.ImageIndexFromPath path = .ok l)
    (hm : W.IndexManifest l = .ok m)
    (hl' : W.ImageIndexFromPathWithIndex path
      { m with Manifests := filteredManifests m.Manifests M } = .ok l') :
    loadImage W path index M =
      if index then .ok (.index l')
      else loadImage.single W l' (filteredManifests m.Manifests M) := by
  simp [loadImage, hstat, hl, hm, hl']

/-- With exactly one descriptor left, the result is never the entry-count error. -/
theorem loadImage_single_one_not_count {Img Idx : Type} (W : World Img Idx)
    (l : Idx) (desc : Descriptor) (n : Int) :
    loadImage.single W l [desc] ≠
      .error (.errorf "layout contains %d entries, consider --index" [.int n]) := by
  rw [loadImage_single_one]
  intro h
  split at h
  · split at h <;> cases h
  · split at h
    · split at h <;> cases h
    · injection h with h
      injection h with h1 h2
      exact absurd h1 (by decide)

/-! ## The matcher engine -/

/-- C1: the descriptor sequence built by the filtering loop of `loadImage` is
a subsequence of the manifest's descriptors in their original order, and it
is exactly the sequence of the descriptors accepted by `matchesAll`: it
equals the order-preserving filter, so a descriptor occurs in it as often as
it occurs in the input when it matches and not at all when it does not. -/
theorem filteredManifests_subsequence_exact (D : List Descriptor)
    (M : List Matcher) :
    List.Sublist (filteredManifests D M) D ∧
    filteredManifests D M = D.filter (fun d => matchesAll d M) ∧
    (∀ d, d ∈ filteredManifests D M ↔ d ∈ D ∧ matchesAll d M = true) ∧
    (∀ d, matchesAll d M = true →
      (filteredManifests D M).count d = D.count d) ∧
    (∀ d, matchesAll d M = false → d ∉ filteredManifests D M) := by
  rw [filteredManifests_eq_filter]
  refine ⟨List.filter_sublist D, rfl, ?_, ?_, ?_⟩
  · intro d
    simp [List.mem_filter]
  · intro d hd
    rw [List.count_filter]
    exact hd
  · intro d hd hmem
    have := (List.mem_filter.mp hmem).2
    simp [hd] at this

/-- C2: `matchesAll` returns true exactly when every matcher of the list
accepts the descriptor, and it returns true for the empty matcher list. -/
theorem matchesAll_iff_every_matcher (d : Descriptor) (M : List Matcher) :
    (matchesAll d M = true ↔ ∀ m ∈ M, m d = true) ∧ matchesAll d [] = true := by
  refine ⟨?_, rfl⟩
  rw [matchesAll_eq_all]
  simp [List.all_eq_true]

/-- C8: filtering with the empty matcher list returns the descriptor sequence
unchanged, hence with the same length. -/
theorem filteredManifests_no_matchers (D : List Descriptor) :
    filteredManifests D [] = D ∧ (filteredManifests D []).length = D.length := by
  have h : filteredManifests D [] = D := filteredManifests_nil D
  exact ⟨h, by rw [h]⟩

/-- C6: `GetMatchers` fails exactly when the `--match-digest` string is
non-empty and rejected by `v1.NewHash`, or some `--match-annotation` string
contains no `=`; it succeeds, returning a matcher list, exactly in every
other configuration (digest empty or well-formed, every annotation string
containing `=`). -/
theorem GetMatchers_fails_iff {Img Idx : Type} (W : World Img Idx)
    (im : indexMatchers) :
    ((∃ err, GetMatchers W im = .error err) ↔
      (im.digest ≠ "" ∧ ∃ e, W.NewHash im.digest = .error e) ∨
      (∃ s ∈ im.annotations, '=' ∉ s.data)) ∧
    ((∃ ms, GetMatchers W im = .ok ms) ↔
      (im.digest = "" ∨ ∃ h, W.NewHash im.digest = .ok h) ∧
      ∀ s ∈ im.annotations, '=' ∈ s.data) := by
  by_cases hall : ∀ s ∈ im.annotations, '=' ∈ s.data
  · have hnot : ¬ ∃ s ∈ im.annotations, '=' ∉ s.data := by
      rintro ⟨s, hs, hne⟩
      exact hne (hall s hs)
    by_cases hd : im.digest = ""
    · refine fails_iff_of_ok
        ((GetMatchers_no_digest W im hd).trans (annotationMatchers_ok _ _ hall))
        ?_ ⟨Or.inl hd, hall⟩
      rintro (⟨hne, _⟩ | hex)
      · exact hne hd
      · exact hnot hex
    · cases hh : W.NewHash im.digest with
      | error e =>
        refine fails_iff_of_error (GetMatchers_digest_error W im hd e hh)
          (Or.inl ⟨hd, e, rfl⟩) ?_
        rintro ⟨hempty | ⟨h, hok⟩, _⟩
        · exact hd hempty
        · cases hok
      | ok h =>
        refine fails_iff_of_ok
          ((GetMatchers_digest_ok W im hd h hh).trans
            (annotationMatchers_ok _ _ hall))
          ?_ ⟨Or.inr ⟨h, rfl⟩, hall⟩
        rintro (⟨_, e, he⟩ | hex)
        · cases he
        · exact hnot hex
  · have hex : ∃ s ∈ im.annotations, '=' ∉ s.data := by
      push_neg at hall
      exact hall
    by_cases hd : im.digest = ""
    · obtain ⟨err, herr⟩ := annotationMatchers_error im.annotations
        (if im.name ≠ "" then [Name im.name] else []) hex
      exact fails_iff_of_error ((GetMatchers_no_digest W im hd).trans herr)
        (Or.inr hex) (fun hq => hall hq.2)
    · cases hh : W.NewHash im.digest with
      | error e =>
        exact fails_iff_of_error (GetMatchers_digest_error W im hd e hh)
          (Or.inr hex) (fun hq => hall hq.2)
      | ok h =>
        obtain ⟨err, herr⟩ := annotationMatchers_error im.annotations
          (if im.name ≠ "" then [Digests [h], Name im.name] else [Digests [h]])
          hex
        exact fails_iff_of_error ((GetMatchers_digest_ok W im hd h hh).trans herr)
          (Or.inr hex) (fun hq => hall hq.2)

/-- C7: for `--match-annotation` strings that each contain `=`, with no digest
and no name criterion, `GetMatchers` succeeds with one matcher per string,
and `matchesAll` over these matchers accepts a descriptor exactly when, for
every string of the list, the descriptor's annotations map the text before
the first `=` to the text after the first `=`. -/
theorem annotation_matchers_conjunction {Img Idx : Type} (W : World Img Idx)
    (as : List String) (h : ∀ s ∈ as, '=' ∈ s.data) :
    ∃ ms, GetMatchers W { name := "", digest := "", annotations := as } = .ok ms ∧
      ms.length = as.length ∧
      ∀ d : Descriptor, matchesAll d ms = true ↔
        ∀ s ∈ as, d.Annotations.lookup (beforeEq s) = some (afterEq s) := by
  refine ⟨as.map (fun s => Annotation (beforeEq s) (afterEq s)), ?_, by simp, ?_⟩
  · simp [GetMatchers, annotationMatchers_ok _ _ h]
  · intro d
    simp [matchesAll_eq_all, List.all_eq_true, Annotation]

/-- C7, witness: `foo=bar` together with `baz=qux=1`, whose value itself
contains `=`. -/
theorem annotation_matchers_conjunction_witness :
    (∀ s ∈ ["foo=bar", "baz=qux=1"], '=' ∈ s.data) ∧
    ∃ ms, GetMatchers (exampleWorld [])
        { name := "", digest := "", annotations := ["foo=bar", "baz=qux=1"] }
          = .ok ms ∧
      ms.length = 2 ∧
      ∀ d : Descriptor, matchesAll d ms = true ↔
        ∀ s ∈ ["foo=bar", "baz=qux=1"],
          d.Annotations.lookup (beforeEq s) = some (afterEq s) :=
  ⟨by decide,
    annotation_matchers_conjunction (exampleWorld []) ["foo=bar", "baz=qux=1"]
      (by decide)⟩

/-! ## The artifact loader -/

/-- C3: for a directory whose layout reads succeed (the layout, its index
manifest, and the view of the layout restricted to the filtered manifest),
`loadImage` returns the error "layout contains N entries, consider --index"
exactly when index mode is off and the number of descriptors surviving the
filter is not one, and then N is that number; with index mode on it returns
the filtered index view, whatever the number of surviving descriptors. -/
theorem loadImage_entry_count {Img Idx : Type} (W : World Img Idx) (path : String)
    (index : Bool) (M : List Matcher) (l l' : Idx) (m : IndexManifest)
    (hstat : W.Stat path = .ok ⟨true⟩)
    (hl : W.ImageIndexFromPath path = .ok l)
    (hm : W.IndexManifest l = .ok m)
    (hl' : W.ImageIndexFromPathWithIndex path
      { m with Manifests := filteredManifests m.Manifests M } = .ok l') :
    (∀ n : Int,
      loadImage W path index M =
          .error (.errorf "layout contains %d entries, consider --index" [.int n])
        ↔ index = false ∧ (filteredManifests m.Manifests M).length ≠ 1 ∧
          n = (filteredManifests m.Manifests M).length) ∧
    (index = true → loadImage W path index M = .ok (.index l')) := by
  rw [loadImage_of_layout W path index M l l' m hstat hl hm hl']
  refine ⟨fun n => ⟨fun h => ?_, fun h => ?_⟩, fun h => by simp [h]⟩
  · cases index with
    | true => simp at h
    | false =>
      simp only [Bool.false_eq_true, if_false] at h
      by_cases hone : (filteredManifests m.Manifests M).length ≠ 1
      · rw [loadImage_single_count W l' _ hone] at h
        injection h with h
        injection h with _ h
        injection h with h
        injection h with h
        exact ⟨rfl, hone, h.symm⟩
      · exfalso
        have hlen : (filteredManifests m.Manifests M).length = 1 := by omega
        obtain ⟨d, hd⟩ := List.length_eq_one.mp hlen
        rw [hd] at h
        exact loadImage_single_one_not_count W l' d n h
  · obtain ⟨hi, hone, hn⟩ := h
    subst hi
    simp only [Bool.false_eq_true, if_false]
    rw [loadImage_single_count W l' _ hone, hn]

/-- C3, witness: a layout of two images, no matchers; image mode fails with
the entry count 2, index mode returns the index of both. -/
theorem loadImage_entry_count_witness :
    (exampleWorld [imageA, imageB]).Stat "layout" = .ok ⟨true⟩ ∧
    loadImage (exampleWorld [imageA, imageB]) "layout" false [] =
      .error (.errorf "layout contains %d entries, consider --index" [.int 2]) ∧
    loadImage (exampleWorld [imageA, imageB]) "layout" true [] =
      .ok (.index [imageA, imageB]) :=
  ⟨rfl,
    ((loadImage_entry_count (exampleWorld [imageA, imageB]) "layout" false []
      [imageA, imageB] [imageA, imageB]
      ⟨2, "application/vnd.oci.image.index.v1+json", [imageA, imageB], []⟩
      rfl rfl rfl rfl).1 2).mpr ⟨rfl, by decide, rfl⟩,
    (loadImage_entry_count (exampleWorld [imageA, imageB]) "layout" true []
      [imageA, imageB] [imageA, imageB]
      ⟨2, "application/vnd.oci.image.index.v1+json", [imageA, imageB], []⟩
      rfl rfl rfl rfl).2 rfl⟩

/-- C4: for a directory whose layout reads succeed, index mode off and exactly
one surviving descriptor `d`, `loadImage` dispatches on the media type of
`d`: when `IsImage` holds the result is that of the layout's `Image` for the
digest of `d`; otherwise, when `IsIndex` holds, that of the layout's
`ImageIndex` for the digest; for any other media type the non-image error.
In particular a layout of exactly one image whose manifest is found, loaded
with no matchers, gives an image handle and not an index. -/
theorem loadImage_dispatch {Img Idx : Type} (W : World Img Idx) (path : String)
    (M : List Matcher) (l l' : Idx) (m : IndexManifest) (d : Descriptor)
    (hstat : W.Stat path = .ok ⟨true⟩)
    (hl : W.ImageIndexFromPath path = .ok l)
    (hm : W.IndexManifest l = .ok m)
    (hl' : W.ImageIndexFromPathWithIndex path
      { m with Manifests := filteredManifests m.Manifests M } = .ok l') :
    (filteredManifests m.Manifests M = [d] →
      (W.IsImage d.MediaType = true →
        (∀ img, W.Image l' d.Digest = .ok img →
          loadImage W path false M = .ok (.image img)) ∧
        (∀ e, W.Image l' d.Digest = .error e →
          loadImage W path false M = .error (.external e))) ∧
      (W.IsImage d.MediaType = false → W.IsIndex d.MediaType = true →
        (∀ idx, W.ImageIndex l' d.Digest = .ok idx →
          loadImage W path false M = .ok (.index idx)) ∧
        (∀ e, W.ImageIndex l' d.Digest = .error e →
          loadImage W path false M = .error (.external e))) ∧
      (W.IsImage d.MediaType = false → W.IsIndex d.MediaType = false →
        loadImage W path false M =
          .error (.errorf
            "layout contains non-image (mediaType: %q), consider --index"
            [.str d.MediaType]))) ∧
    (M = [] → m.Manifests = [d] → W.IsImage d.MediaType = true →
      ∀ img, W.Image l' d.Digest = .ok img →
        loadImage W path false M = .ok (.image img) ∧
        ∀ idx, loadImage W path false M ≠ .ok (.index idx)) := by
  have hload := loadImage_of_layout W path false M l l' m hstat hl hm hl'
  simp only [Bool.false_eq_true, if_false] at hload
  refine ⟨fun hone => ?_, fun hM hD hI img himg => ?_⟩
  · rw [hload, hone, loadImage_single_one]
    refine ⟨fun hI => ⟨fun img himg => ?_, fun e he => ?_⟩,
      fun hI hX => ⟨fun idx hidx => ?_, fun e he => ?_⟩, fun hI hX => ?_⟩
    · simp [hI, himg]
    · simp [hI, he]
    · simp [hI, hX, hidx]
    · simp [hI, hX, he]
    · simp [hI, hX]
  · have hone : filteredManifests m.Manifests M = [d] := by
      rw [hM, filteredManifests_nil, hD]
    rw [hload, hone, loadImage_single_one]
    simp [hI, himg]

/-- C4, witness: a layout holding the single image `imageA`, loaded with no
matchers in image mode, gives the image of `imageA`. -/
theorem loadImage_dispatch_witness :
    (exampleWorld [imageA]).Stat "layout" = .ok ⟨true⟩ ∧
    filteredManifests [imageA] [] = [imageA] ∧
    (exampleWorld [imageA]).IsImage imageA.MediaType = true ∧
    loadImage (exampleWorld [imageA]) "layout" false [] =
      .ok (.image ⟨"sha256", hexA⟩) :=
  ⟨rfl, rfl, rfl,
    (((loadImage_dispatch (exampleWorld [imageA]) "layout" [] [imageA] [imageA]
      ⟨2, "application/vnd.oci.image.index.v1+json", [imageA], []⟩ imageA
      rfl rfl rfl rfl).1 rfl).1 rfl).1 ⟨"sha256", hexA⟩ rfl⟩

/-! ## The push command and digest destinations -/

/-- The layout path of a push to a Digest Reference with well-formed declared
digest `h`: every descriptor surviving the filter has digest `h` (and passes
the match options); with index mode off, when the number of survivors is not
one the command returns the entry-count error with no registry write and no
write of the `--image-refs` file; and when exactly one image descriptor
survives, the image written to the registry is the layout's image for the
declared digest. -/
theorem digest_selector_on_layout {Img Idx : Type} (W : World Img Idx)
    (imageRefs : String) (im : indexMatchers) (path tag : String)
    (rest : List String) (repo dg : String) (h : Hash) (ms : List Matcher)
    (l l' : Idx) (m : IndexManifest)
    (hparse : W.ParseReference tag = .ok (.Digest repo dg))
    (hms : GetMatchers W im = .ok ms)
    (hhash : W.NewHash dg = .ok h)
    (hstat : W.Stat path = .ok ⟨true⟩)
    (hl : W.ImageIndexFromPath path = .ok l)
    (hm : W.IndexManifest l = .ok m)
    (hl' : W.ImageIndexFromPathWithIndex path
      { m with Manifests := filteredManifests m.Manifests (ms ++ [Digests [h]]) }
        = .ok l') :
    (∀ d ∈ filteredManifests m.Manifests (ms ++ [Digests [h]]),
      d.Digest = h ∧ matchesAll d ms = true) ∧
    ((filteredManifests m.Manifests (ms ++ [Digests [h]])).length ≠ 1 →
      NewCmdPush.RunE W false imageRefs im (path :: tag :: rest) =
        ⟨[], .returned (some
          (.errorf "layout contains %d entries, consider --index"
            [.int (filteredManifests m.Manifests (ms ++ [Digests [h]])).length]))⟩) ∧
    (∀ d img, filteredManifests m.Manifests (ms ++ [Digests [h]]) = [d] →
      W.IsImage d.MediaType = true → W.Image l' h = .ok img →
      (NewCmdPush.RunE W false imageRefs im (path :: tag :: rest)).effects.head?
        = some (.Write (.Digest repo dg) img)) := by
  have hmem : ∀ d ∈ filteredManifests m.Manifests (ms ++ [Digests [h]]),
      d.Digest = h ∧ matchesAll d ms = true := by
    intro d hd
    rw [filteredManifests_eq_filter] at hd
    have hacc := (List.mem_filter.mp hd).2
    have := (digest_selector_accepts d ms h).mp (by simpa using hacc)
    exact ⟨this.2, this.1⟩
  have hload := loadImage_of_layout W path false (ms ++ [Digests [h]]) l l' m
    hstat hl hm hl'
  simp only [Bool.false_eq_true, if_false] at hload
  refine ⟨hmem, fun hlen => ?_, fun d img hone hI himg => ?_⟩
  · simp [NewCmdPush.RunE, hparse, hms, NewCmdPush.digestSelector, hhash, hload,
      loadImage_single_count W l' _ hlen]
  · have hd : d.Digest = h := (hmem d (by rw [hone]; simp)).1
    have hres : loadImage W path false (ms ++ [Digests [h]]) = .ok (.image img) := by
      rw [hload, hone, loadImage_single_one]
      simp [hI, hd, himg]
    simp only [NewCmdPush.RunE, hparse, hms, NewCmdPush.digestSelector, hhash, hres]
    cases W.Write (Reference.Digest repo dg) img with
    | error e => rfl
    | ok u =>
      cases W.ImageDigest img with
      | error e => rfl
      | ok hh =>
        simp only [NewCmdPush.record]
        split
        · cases W.WriteFile imageRefs
            (Repository.Digest (Reference.Digest repo dg).Context hh.String) <;> rfl
        · rfl

/-- C5: the push command makes no digest-mismatch check.  A tarball whose
image has digest `sha256:bbbb...b`, pushed to a Digest Reference declaring
`sha256:aaaa...a` with a registry write that succeeds, is written to that
reference, the command returns no error and writes the `--image-refs` file
with the computed digest.  In index mode from a layout of two images the
filtered index, whose digest is not the declared one, is written to the
Digest Reference and recorded likewise.  The layout image path does enforce
the declared digest: with no descriptor of digest `sha256:cccc...c` the push
fails before any write. -/
theorem push_digest_mismatch_unchecked :
    (exampleWorld []).ParseReference
        "example.com/repo@sha256:aaaaaaaaaaaaaaaaaaaaaaaaaaaaaaaaaaaaaaaaaaaaaaaaaaaaaaaaaaaaaaaa"
      = .ok (.Digest "example.com/repo"
          "sha256:aaaaaaaaaaaaaaaaaaaaaaaaaaaaaaaaaaaaaaaaaaaaaaaaaaaaaaaaaaaaaaaa") ∧
    (exampleWorld []).NewHash
        "sha256:aaaaaaaaaaaaaaaaaaaaaaaaaaaaaaaaaaaaaaaaaaaaaaaaaaaaaaaaaaaaaaaa"
      = .ok ⟨"sha256", hexA⟩ ∧
    loadImage (exampleWorld []) "image.tar" false [Digests [⟨"sha256", hexA⟩]]
      = .ok (.image ⟨"sha256", hexB⟩) ∧
    (exampleWorld []).ImageDigest ⟨"sha256", hexB⟩ = .ok ⟨"sha256", hexB⟩ ∧
    (⟨"sha256", hexB⟩ : Hash) ≠ ⟨"sha256", hexA⟩ ∧
    NewCmdPush.Execute (exampleWorld []) false "refs.txt" ⟨"", "", []⟩
        ["image.tar",
          "example.com/repo@sha256:aaaaaaaaaaaaaaaaaaaaaaaaaaaaaaaaaaaaaaaaaaaaaaaaaaaaaaaaaaaaaaaa"] =
      ⟨[.Write (.Digest "example.com/repo"
            "sha256:aaaaaaaaaaaaaaaaaaaaaaaaaaaaaaaaaaaaaaaaaaaaaaaaaaaaaaaaaaaaaaaa")
          ⟨"sha256", hexB⟩,
        .WriteFile "refs.txt"
          "example.com/repo@sha256:bbbbbbbbbbbbbbbbbbbbbbbbbbbbbbbbbbbbbbbbbbbbbbbbbbbbbbbbbbbbbbbb"],
        .returned none⟩ ∧
    (exampleWorld [imageA, imageB]).IndexDigest [imageA]
      = .ok ⟨"sha256",
          "faaaaaaaaaaaaaaaaaaaaaaaaaaaaaaaaaaaaaaaaaaaaaaaaaaaaaaaaaaaaaaa"⟩ ∧
    NewCmdPush.Execute (exampleWorld [imageA, imageB]) true "refs.txt"
        ⟨"", "", []⟩
        ["layout",
          "example.com/repo@sha256:aaaaaaaaaaaaaaaaaaaaaaaaaaaaaaaaaaaaaaaaaaaaaaaaaaaaaaaaaaaaaaaa"] =
      ⟨[.WriteIndex (.Digest "example.com/repo"
            "sha256:aaaaaaaaaaaaaaaaaaaaaaaaaaaaaaaaaaaaaaaaaaaaaaaaaaaaaaaaaaaaaaaa")
          [imageA],
        .WriteFile "refs.txt"
          "example.com/repo@sha256:faaaaaaaaaaaaaaaaaaaaaaaaaaaaaaaaaaaaaaaaaaaaaaaaaaaaaaaaaaaaaaa"],
        .returned none⟩ ∧
    NewCmdPush.Execute (exampleWorld [imageA, imageB]) false "refs.txt"
        ⟨"", "", []⟩
        ["layout",
          "example.com/repo@sha256:cccccccccccccccccccccccccccccccccccccccccccccccccccccccccccccccc"] =
      ⟨[], .returned (some
        (.errorf "layout contains %d entries, consider --index" [.int 0]))⟩ :=
  ⟨rfl, rfl, rfl, rfl, by decide, by decide, rfl, by decide, by decide⟩

/-! ## The name command -/

/-- C10: the argument validator of the name command accepts the empty argument
list, and on it the run function indexes `args[0]` out of range and
panics. -/
theorem NewCmdName_no_argument_panics {Img Idx : Type} (W : World Img Idx)
    (lock : Bool) :
    MaximumNArgs 1 [] = none ∧
    NewCmdName.RunE W lock [] =
      ⟨[], .panic "index out of range [0] with length 0"⟩ ∧
    NewCmdName.Execute W lock [] =
      ⟨[], .panic "index out of range [0] with length 0"⟩ :=
  ⟨rfl, rfl, rfl⟩

end Crane
